import Mathlib

/-!
Shallow embedding of the binary codec of SWAN-community/common-go (io.go).

Modelling conventions:

* A Go bytes.Buffer is a queue of bytes: reads consume from the front of the
  unread region, writes append at the back.  Byte values are natural numbers,
  meaningful below 256.
* Go functions returning (value, error) pairs are modelled by functions
  returning ((value, Option GoErr), Buffer): the updated buffer is threaded
  explicitly.  A Go nil error is none; error messages are shortened constants.
* Go slices that can be nil are modelled by Option when the nil-ness is
  observable (ReadStrings, ReadByteArrayArray); elsewhere nil and the empty
  slice are both the empty list.
* float32 values are modelled by their raw 32-bit IEEE-754 bit patterns: the
  source moves them through the Uint32 path with math.Float32bits and
  math.Float32frombits, never doing float arithmetic on them.
* time.Time values are modelled by the GoTime type below; instants written by
  the date codecs are given by their signed nanosecond offset from the
  IoDateBase epoch (a fixed reference timestamp declared elsewhere in the
  repository; only offsets from it matter here).
-/

namespace CommonGo

/-- Go errors are modelled by their message strings. -/
abbrev GoErr := String

/-- Message of io.EOF, returned by bytes.Buffer.ReadBytes when the delimiter is
not found. -/
def errEOF : GoErr := "EOF"

/-- Message of the error of ReadUint32 when fewer than 4 bytes remain. -/
def errUint32 : GoErr := "bytes incorrect for Uint32"

/-- Message of the error of ReadUint16 when fewer than 2 bytes remain. -/
def errUint16 : GoErr := "bytes incorrect for Uint16"

/-- Message of the error of ReadByte when no byte remains. -/
def errByte : GoErr := "bytes incorrect for byte"

/-- Message of the error of ReadBool when no byte remains. -/
def errBool : GoErr := "bytes incorrect for bool"

/-- Message of the mismatched-length errors raised by the defensive checks
after writes. -/
def errMismatch : GoErr := "mismatched lengths"

/-- Model of Go bytes.Buffer: the list of unread bytes.  Reads consume from
the front, writes append to the back. -/
structure Buffer where
  data : List Nat
deriving DecidableEq

/-- Model of bytes.Buffer.Next: return up to n bytes from the front and
consume them.  Next never fails; it returns fewer bytes when fewer remain. -/
def Buffer.next (b : Buffer) (n : Nat) : List Nat × Buffer :=
  (b.data.take n, ⟨b.data.drop n⟩)

/-- Model of bytes.Buffer.Write and WriteString: append the bytes and report
how many were written.  On bytes.Buffer the returned Go error is always nil
and the count always equals the length of the argument. -/
def Buffer.write (b : Buffer) (v : List Nat) : Buffer × Nat :=
  (⟨b.data ++ v⟩, v.length)

/-- Model of bytes.Buffer.WriteByte: append one byte (always succeeds). -/
def Buffer.writeByte (b : Buffer) (c : Nat) : Buffer :=
  ⟨b.data ++ [c]⟩

/-- Model of bytes.Buffer.ReadBytes(0): read up to and including the first
zero byte.  When no zero byte is present, all remaining bytes are consumed and
returned together with io.EOF. -/
def Buffer.readBytesZero (b : Buffer) : (List Nat × Option GoErr) × Buffer :=
  let pre := b.data.takeWhile (fun c => c != 0)
  if pre.length = b.data.length then
    ((b.data, some errEOF), ⟨[]⟩)
  else
    ((pre ++ [0], none), ⟨b.data.drop (pre.length + 1)⟩)

/-- Model of binary.LittleEndian.PutUint16: the two little-endian bytes of the
low 16 bits of i (the Go conversion uint16(i) keeps exactly those bits). -/
def putUint16 (i : Nat) : List Nat :=
  [i % 256, i / 256 % 256]

/-- Model of binary.LittleEndian.PutUint32: the four little-endian bytes of
the low 32 bits of i. -/
def putUint32 (i : Nat) : List Nat :=
  [i % 256, i / 256 % 256, i / 65536 % 256, i / 16777216 % 256]

/-- Model of binary.LittleEndian.Uint16 on a 2-byte slice. -/
def leUint16 (d : List Nat) : Nat :=
  d.getD 0 0 + 256 * d.getD 1 0

/-- Model of binary.LittleEndian.Uint32 on a 4-byte slice. -/
def leUint32 (d : List Nat) : Nat :=
  d.getD 0 0 + 256 * d.getD 1 0 + 65536 * d.getD 2 0 + 16777216 * d.getD 3 0

/-- ReadUint32 from the source: consume 4 bytes and decode little-endian;
fewer than 4 bytes is an error (the zero value 0 is returned with it). -/
def ReadUint32 (b : Buffer) : (Nat × Option GoErr) × Buffer :=
  let (d, b1) := b.next 4
  if d.length ≠ 4 then ((0, some errUint32), b1)
  else ((leUint32 d, none), b1)

/-- ReadUint16 from the source: consume 2 bytes and decode little-endian;
fewer than 2 bytes is an error. -/
def ReadUint16 (b : Buffer) : (Nat × Option GoErr) × Buffer :=
  let (d, b1) := b.next 2
  if d.length ≠ 2 then ((0, some errUint16), b1)
  else ((leUint16 d, none), b1)

/-- WriteUint32 from the source: append the four little-endian bytes; the
defensive length check never fires on a bytes.Buffer. -/
def WriteUint32 (b : Buffer) (i : Nat) : Buffer × Option GoErr :=
  let v := putUint32 i
  let (b1, l) := b.write v
  if l ≠ v.length then (b1, some errMismatch) else (b1, none)

/-- WriteUint16 from the source: append the two little-endian bytes. -/
def WriteUint16 (b : Buffer) (i : Nat) : Buffer × Option GoErr :=
  let v := putUint16 i
  let (b1, l) := b.write v
  if l ≠ v.length then (b1, some errMismatch) else (b1, none)

/-- ReadByte from the source: Next(1); an empty buffer is an error. -/
def ReadByte (b : Buffer) : (Nat × Option GoErr) × Buffer :=
  let (d, b1) := b.next 1
  if d.length ≠ 1 then ((0, some errByte), b1)
  else ((d.getD 0 0, none), b1)

/-- WriteByte from the source: append the byte (bytes.Buffer.WriteByte always
succeeds). -/
def WriteByte (b : Buffer) (i : Nat) : Buffer × Option GoErr :=
  (b.writeByte i, none)

/-- ReadBool from the source: Next(1); the byte 0 decodes to false and every
other byte value decodes to true. -/
def ReadBool (b : Buffer) : (Bool × Option GoErr) × Buffer :=
  let (d, b1) := b.next 1
  if d.length ≠ 1 then ((false, some errBool), b1)
  else ((d.getD 0 0 != 0, none), b1)

/-- WriteBool from the source: append 1 for true and 0 for false. -/
def WriteBool (b : Buffer) (v : Bool) : Buffer × Option GoErr :=
  (b.writeByte (if v then 1 else 0), none)

/-- ReadString from the source: ReadBytes(0), then strip the terminator; when
the terminator is missing the error (io.EOF) is returned with the empty
string. -/
def ReadString (b : Buffer) : (List Nat × Option GoErr) × Buffer :=
  let ((s, e), b1) := b.readBytesZero
  match e with
  | none => ((s.dropLast, none), b1)
  | some err => (([], some err), b1)

/-- WriteString from the source: append the bytes of the string, check the
reported count, then append the zero terminator. -/
def WriteString (b : Buffer) (s : List Nat) : Buffer × Option GoErr :=
  let (b1, l) := b.write s
  if l ≠ s.length then (b1, some errMismatch)
  else (b1.writeByte 0, none)

/-- ReadByteArray from the source: read a Uint32 count l, then return
Next(l).  Next is not checked, so fewer than l remaining bytes still
succeeds, returning just what remains. -/
def ReadByteArray (b : Buffer) : (List Nat × Option GoErr) × Buffer :=
  let ((l, e), b1) := ReadUint32 b
  match e with
  | some err => (([], some err), b1)
  | none =>
    let (v, b2) := b1.next l
    ((v, none), b2)

/-- WriteByteArrayNoLength from the source: append the bytes with the
defensive count check. -/
def WriteByteArrayNoLength (b : Buffer) (v : List Nat) : Buffer × Option GoErr :=
  let (b1, l) := b.write v
  if l ≠ v.length then (b1, some errMismatch) else (b1, none)

/-- WriteByteArray from the source: a Uint32 length header (the Go conversion
uint32(len(v)) keeps the low 32 bits) followed by the raw bytes. -/
def WriteByteArray (b : Buffer) (v : List Nat) : Buffer × Option GoErr :=
  let (b1, e) := WriteUint32 b v.length
  match e with
  | some err => (b1, some err)
  | none => WriteByteArrayNoLength b1 v

/-- WriteFloat32 from the source: WriteUint32 of math.Float32bits(f); the
float is its bit pattern here. -/
def WriteFloat32 (b : Buffer) (bits : Nat) : Buffer × Option GoErr :=
  WriteUint32 b bits

/-- ReadFloat32 from the source: ReadUint32 then math.Float32frombits, the
identity on bit patterns. -/
def ReadFloat32 (b : Buffer) : (Nat × Option GoErr) × Buffer :=
  let ((f, e), b1) := ReadUint32 b
  match e with
  | some err => ((0, some err), b1)
  | none => ((f, none), b1)

/-- Maximum value of a Go int64, the saturation bound of time.Duration. -/
def int64Max : Int := 9223372036854775807

/-- Minimum value of a Go int64. -/
def int64Min : Int := -9223372036854775808

/-- Nanoseconds in a Go time.Minute. -/
def nsPerMinute : Int := 60000000000

/-- Nanoseconds in 24 hours (the day unit of WriteDate). -/
def nsPerDay : Int := 86400000000000

/-- Values of the Go type time.Time as the source constructs them: the zero
value of time.Time (produced by the failure paths of the read operations and
by ReadTime when gob decoding fails), an instant given by its signed
nanosecond offset from the IoDateBase epoch, or an instant carried by a gob
payload (raw big-endian seconds and nanoseconds fields, opaque here).
Distinct constructors can denote equal instants, but no operation modelled
here ever compares across constructors. -/
inductive GoTime where
  | zero : GoTime
  | epochPlus (ns : Int) : GoTime
  | fromGob (sec nsec : List Nat) : GoTime
deriving DecidableEq

/-- Model of t.Sub(IoDateBase) for t given as its nanosecond offset from the
epoch: time.Time.Sub clamps a result that does not fit in an int64 Duration
to the maximum or minimum Duration. -/
def subIoDateBase (t : Int) : Int :=
  if t > int64Max then int64Max
  else if t < int64Min then int64Min
  else t

/-- GetDateInMinutes from the source: uint32(t.Sub(IoDateBase).Minutes()).
Minutes() divides the nanosecond Duration by 6e10 in float64 and the uint32
conversion truncates toward zero; this is modelled by exact integer
truncation, which agrees with the float64 computation whenever the offset
magnitude is below 2^53 ns and at the saturated offsets.  The Go conversion
is implementation-defined outside [0, 2^32); it is modelled here by toNat
followed by reduction modulo 2^32, and no theorem below relies on the value
in that regime. -/
def GetDateInMinutes (t : Int) : Nat :=
  ((subIoDateBase t).toNat / nsPerMinute.toNat) % 2 ^ 32

/-- WriteDateToUInt32 from the source: WriteUint32 of GetDateInMinutes. -/
def WriteDateToUInt32 (b : Buffer) (t : Int) : Buffer × Option GoErr :=
  WriteUint32 b (GetDateInMinutes t)

/-- Reduction of an unbounded integer to the signed 64-bit value with the
same low 64 bits, modelling wrap-around of Go int64 arithmetic. -/
def wrapInt64 (x : Int) : Int :=
  (x + 2 ^ 63) % 2 ^ 64 - 2 ^ 63

/-- ReadDateFromUInt32 from the source: read a Uint32 minute count i and
return IoDateBase.Add(time.Duration(i) * time.Minute); the int64 product
wraps.  On a read failure the zero time.Time is returned with the error. -/
def ReadDateFromUInt32 (b : Buffer) : (GoTime × Option GoErr) × Buffer :=
  let ((i, e), b1) := ReadUint32 b
  match e with
  | some err => ((GoTime.zero, some err), b1)
  | none => ((GoTime.epochPlus (wrapInt64 ((i : Int) * nsPerMinute)), none), b1)

/-- WriteDate from the source: WriteUint16 of uint16(t.Sub(IoDateBase).Hours()/24).
The float64 day count is modelled by exact integer truncation (exact below
2^53 ns of offset magnitude); the uint16 conversion is implementation-defined
outside [0, 2^16) and is modelled by toNat and reduction modulo 2^16, and no
theorem below relies on the value in that regime. -/
def WriteDate (b : Buffer) (t : Int) : Buffer × Option GoErr :=
  WriteUint16 b (((subIoDateBase t).toNat / nsPerDay.toNat) % 2 ^ 16)

/-- ReadDate from the source: read a Uint16 day count d and return
IoDateBase.Add(time.Duration(d) * time.Hour * 24). -/
def ReadDate (b : Buffer) : (GoTime × Option GoErr) × Buffer :=
  let ((d, e), b1) := ReadUint16 b
  match e with
  | some err => ((GoTime.zero, some err), b1)
  | none => ((GoTime.epochPlus (wrapInt64 ((d : Int) * nsPerDay)), none), b1)

/-- Model of the standard library time.Time.GobDecode (UnmarshalBinary): an
empty payload, an unknown version byte (known versions are 1 and 2), or a
payload of the wrong length (15 bytes for version 1, 16 for version 2) is an
error; otherwise the transmitted instant is recovered.  The decoded instant
is kept abstract as its raw seconds and nanoseconds fields. -/
def gobDecodeTime (d : List Nat) : Except GoErr GoTime :=
  match d with
  | [] => .error "Time.UnmarshalBinary: no data"
  | version :: rest =>
    if version ≠ 1 ∧ version ≠ 2 then .error "Time.UnmarshalBinary: unsupported version"
    else if d.length ≠ (if version = 2 then 16 else 15) then
      .error "Time.UnmarshalBinary: invalid length"
    else .ok (GoTime.fromGob (rest.take 8) ((rest.drop 8).take 4))

/-- ReadTime from the source: read a length-prefixed byte blob and gob-decode
it into the local zero time.Time variable t.  The source discards the error
result of t.GobDecode(d), so a blob the gob decoder rejects still yields a
nil error together with the unchanged zero time. -/
def ReadTime (b : Buffer) : (GoTime × Option GoErr) × Buffer :=
  let ((d, err), b1) := ReadByteArray b
  match err with
  | some e => ((GoTime.zero, some e), b1)
  | none =>
    match gobDecodeTime d with
    | .ok t => ((t, none), b1)
    | .error _ => ((GoTime.zero, none), b1)

/-- Loop body of WriteStrings: write each string in order, stopping at the
first error (none ever occurs on a bytes.Buffer). -/
def writeStringsLoop : List (List Nat) → Buffer → Buffer × Option GoErr
  | [], b => (b, none)
  | s :: t, b =>
    let (b1, e) := WriteString b s
    match e with
    | some err => (b1, some err)
    | none => writeStringsLoop t b1

/-- WriteStrings from the source: a Uint16 element count (the Go conversion
uint16(len(v)) keeps the low 16 bits) followed by each string, null
terminated, in order. -/
def WriteStrings (b : Buffer) (v : List (List Nat)) : Buffer × Option GoErr :=
  let (b1, e) := WriteUint16 b v.length
  match e with
  | some err => (b1, some err)
  | none => writeStringsLoop v b1

/-- Loop of ReadStrings: read the given number of strings in order; on the
first element error the Go code returns nil together with the error. -/
def readStringsLoop : Nat → Buffer → (Option (List (List Nat)) × Option GoErr) × Buffer
  | 0, b => ((some [], none), b)
  | Nat.succ n, b =>
    let ((s, e), b1) := ReadString b
    match e with
    | some err => ((none, some err), b1)
    | none =>
      match readStringsLoop n b1 with
      | ((some l, e2), b2) => ((some (s :: l), e2), b2)
      | ((none, e2), b2) => ((none, e2), b2)

/-- ReadStrings from the source: read a Uint16 count then that many null
terminated strings; any failure is returned together with a nil slice. -/
def ReadStrings (b : Buffer) : (Option (List (List Nat)) × Option GoErr) × Buffer :=
  let ((c, e), b1) := ReadUint16 b
  match e with
  | some err => ((none, some err), b1)
  | none => readStringsLoop c b1

/-- Loop body of WriteByteArrayArray: write each length-prefixed blob. -/
def writeByteArrayArrayLoop : List (List Nat) → Buffer → Buffer × Option GoErr
  | [], b => (b, none)
  | a :: t, b =>
    let (b1, e) := WriteByteArray b a
    match e with
    | some err => (b1, some err)
    | none => writeByteArrayArrayLoop t b1

/-- WriteByteArrayArray from the source: a Uint16 element count followed by
each blob written with WriteByteArray, in order. -/
def WriteByteArrayArray (b : Buffer) (v : List (List Nat)) : Buffer × Option GoErr :=
  let (b1, e) := WriteUint16 b v.length
  match e with
  | some err => (b1, some err)
  | none => writeByteArrayArrayLoop v b1

/-- Loop of ReadByteArrayArray: read the given number of length-prefixed
blobs in order; on the first element error the Go code returns nil together
with the error. -/
def readByteArrayArrayLoop : Nat → Buffer → (Option (List (List Nat)) × Option GoErr) × Buffer
  | 0, b => ((some [], none), b)
  | Nat.succ n, b =>
    let ((a, e), b1) := ReadByteArray b
    match e with
    | some err => ((none, some err), b1)
    | none =>
      match readByteArrayArrayLoop n b1 with
      | ((some l, e2), b2) => ((some (a :: l), e2), b2)
      | ((none, e2), b2) => ((none, e2), b2)

/-- ReadByteArrayArray from the source: read a Uint16 count then that many
length-prefixed blobs; any failure is returned together with a nil slice. -/
def ReadByteArrayArray (b : Buffer) : (Option (List (List Nat)) × Option GoErr) × Buffer :=
  let ((c, e), b1) := ReadUint16 b
  match e with
  | some err => ((none, some err), b1)
  | none => readByteArrayArrayLoop c b1

/-- Byte sequence produced by writing each string null terminated, in order
(the element region of the WriteStrings wire format). -/
def encStrings (v : List (List Nat)) : List Nat :=
  (v.map (fun s => s ++ [0])).flatten

/-- Byte sequence produced by writing each blob with its Uint32 length header,
in order (the element region of the WriteByteArrayArray wire format). -/
def encBlobs (v : List (List Nat)) : List Nat :=
  (v.map (fun a => putUint32 a.length ++ a)).flatten

theorem writeUint32_eq (b : Buffer) (i : Nat) :
    WriteUint32 b i = (⟨b.data ++ putUint32 i⟩, none) := by
  simp [WriteUint32, Buffer.write]

theorem writeUint16_eq (b : Buffer) (i : Nat) :
    WriteUint16 b i = (⟨b.data ++ putUint16 i⟩, none) := by
  simp [WriteUint16, Buffer.write]

theorem writeString_eq (b : Buffer) (s : List Nat) :
    WriteString b s = (⟨b.data ++ (s ++ [0])⟩, none) := by
  simp [WriteString, Buffer.write, Buffer.writeByte]

theorem readUint32_parse (i : Nat) (rest : List Nat) (h : i < 2 ^ 32) :
    ReadUint32 ⟨putUint32 i ++ rest⟩ = ((i, none), ⟨rest⟩) := by
  simp only [ReadUint32, Buffer.next, putUint32, List.cons_append, List.nil_append,
    List.take_succ_cons, List.take_zero, List.drop_succ_cons, List.drop_zero,
    List.length_cons, List.length_nil, leUint32, List.getD]
  norm_num
  omega

theorem readUint16_parse (i : Nat) (rest : List Nat) (h : i < 2 ^ 16) :
    ReadUint16 ⟨putUint16 i ++ rest⟩ = ((i, none), ⟨rest⟩) := by
  simp only [ReadUint16, Buffer.next, putUint16, List.cons_append, List.nil_append,
    List.take_succ_cons, List.take_zero, List.drop_succ_cons, List.drop_zero,
    List.length_cons, List.length_nil, leUint16, List.getD]
  norm_num
  omega

/-- C1: the claim states that every decode operation fails when the buffer is
short — in particular that ReadByteArray fails when fewer bytes remain than
the Uint32 count it read, and that a successful ReadByteArray returns exactly
count bytes.  The code refutes the ReadByteArray half: it is refuted at the
four-byte buffer 05 00 00 00, which declares a count of 5 with zero bytes
remaining, yet ReadByteArray succeeds (nil error) and returns an empty slice
rather than 5 bytes. -/
theorem c1_counterexample :
    ReadByteArray ⟨[5, 0, 0, 0]⟩ = (([], none), ⟨[]⟩) ∧
    ([] : List Nat).length ≠ 5 := by
  decide

/-- C1 amended: the fixed-width reads do fail on short buffers (shown for
ReadUint32), but ReadByteArray checks only the 4 header bytes: after reading
a count l it succeeds unconditionally, returning the first l remaining bytes
or, when fewer than l remain, just those remaining bytes (its length is
min l rest.length, possibly short). -/
theorem c1_read_byte_array_truncation (l : Nat) (rest data : List Nat)
    (hl : l < 2 ^ 32) (hd : data.length < 4) :
    ReadByteArray ⟨putUint32 l ++ rest⟩ = ((rest.take l, none), ⟨rest.drop l⟩) ∧
    (rest.take l).length = min l rest.length ∧
    ReadUint32 ⟨data⟩ = ((0, some errUint32), ⟨[]⟩) := by
  refine ⟨?_, ?_, ?_⟩
  · simp [ReadByteArray, readUint32_parse l rest hl, Buffer.next]
  · simp [List.length_take]
  · have ht : data.take 4 = data := List.take_of_length_le (by omega)
    have hdr : data.drop 4 = [] := List.drop_eq_nil_of_le (by omega)
    simp [ReadUint32, Buffer.next, ht, hdr]
    omega

/-- Witness for c1_read_byte_array_truncation at count 5 against a single
remaining byte and a 2-byte buffer for ReadUint32. -/
theorem c1_read_byte_array_truncation_witness :
    ReadByteArray ⟨putUint32 5 ++ [7]⟩ = (([7].take 5, none), ⟨[7].drop 5⟩) ∧
    ([7].take 5).length = min 5 [7].length ∧
    ReadUint32 ⟨[1, 2]⟩ = ((0, some errUint32), ⟨[]⟩) :=
  c1_read_byte_array_truncation 5 [7] [1, 2] (by decide) (by decide)

/-- C2: the claim states that encoding a timestamp outside the representable
range fails with a RangeOverflow error.  The code refutes it: the date
encoders have no failure path for range at all.  Refuted at one minute before
the epoch for the minutes codec and at 200 years (73000 days, beyond the
65535-day capacity of a Uint16) after the epoch for the days codec: both
encodes return a nil error. -/
theorem c2_counterexample :
    (WriteDateToUInt32 ⟨[]⟩ (-60000000000)).2 = none ∧
    (WriteDate ⟨[]⟩ 6307200000000000000).2 = none ∧
    (6307200000000000000 : Int) / nsPerDay = 73000 ∧ 65535 < 73000 := by
  refine ⟨?_, ?_, by decide, by decide⟩
  · simp [WriteDateToUInt32, writeUint32_eq]
  · simp [WriteDate, writeUint16_eq]

/-- C2 amended: GetDateInMinutes returns a bare integer with no error result,
and WriteDateToUInt32 and WriteDate succeed (nil error) for every timestamp
whatsoever, silently truncating the epoch offset to the integer width instead
of validating range. -/
theorem c2_no_range_error (b : Buffer) (t : Int) :
    (WriteDateToUInt32 b t).2 = none ∧ (WriteDate b t).2 = none := by
  exact ⟨by simp [WriteDateToUInt32, writeUint32_eq],
    by simp [WriteDate, writeUint16_eq]⟩

/-- C3: round trip of every representable Uint16, Uint32, byte, bool and
float32 value through its encode and decode operations on an otherwise empty
buffer returns the value exactly; the float32 travels as its raw IEEE-754 bit
pattern through the Uint32 path, so recovery is bit-exact. -/
theorem c3_scalar_round_trip (i16 i32 c f : Nat) (v : Bool)
    (h16 : i16 < 2 ^ 16) (h32 : i32 < 2 ^ 32) (hc : c < 256) (hf : f < 2 ^ 32) :
    ReadUint16 (WriteUint16 ⟨[]⟩ i16).1 = ((i16, none), ⟨[]⟩) ∧
    ReadUint32 (WriteUint32 ⟨[]⟩ i32).1 = ((i32, none), ⟨[]⟩) ∧
    ReadByte (WriteByte ⟨[]⟩ c).1 = ((c, none), ⟨[]⟩) ∧
    ReadBool (WriteBool ⟨[]⟩ v).1 = ((v, none), ⟨[]⟩) ∧
    ReadFloat32 (WriteFloat32 ⟨[]⟩ f).1 = ((f, none), ⟨[]⟩) := by
  refine ⟨?_, ?_, ?_, ?_, ?_⟩
  · have := readUint16_parse i16 [] h16
    simpa [writeUint16_eq] using this
  · have := readUint32_parse i32 [] h32
    simpa [writeUint32_eq] using this
  · simp [ReadByte, WriteByte, Buffer.writeByte, Buffer.next]
  · cases v <;> simp [ReadBool, WriteBool, Buffer.writeByte, Buffer.next]
  · have := readUint32_parse f [] hf
    simp only [WriteFloat32, ReadFloat32]
    simp [writeUint32_eq] at this ⊢
    simp [this]

/-- Witness for c3_scalar_round_trip; the float32 bit pattern 2147483648 is
0x80000000, IEEE-754 negative zero. -/
theorem c3_scalar_round_trip_witness :
    ReadUint16 (WriteUint16 ⟨[]⟩ 40000).1 = ((40000, none), ⟨[]⟩) ∧
    ReadUint32 (WriteUint32 ⟨[]⟩ 3000000001).1 = ((3000000001, none), ⟨[]⟩) ∧
    ReadByte (WriteByte ⟨[]⟩ 200).1 = ((200, none), ⟨[]⟩) ∧
    ReadBool (WriteBool ⟨[]⟩ true).1 = ((true, none), ⟨[]⟩) ∧
    ReadFloat32 (WriteFloat32 ⟨[]⟩ 2147483648).1 = ((2147483648, none), ⟨[]⟩) :=
  c3_scalar_round_trip 40000 3000000001 200 2147483648 true
    (by decide) (by decide) (by decide) (by decide)

theorem wrapInt64_eq_self (x : Int) (h0 : 0 ≤ x) (h1 : x < 2 ^ 63) :
    wrapInt64 x = x := by
  unfold wrapInt64
  omega

/-- C4: the claim states that every timestamp up to about 8171 years after
the epoch round-trips through the minutes codec to the timestamp truncated to
the whole minute.  The code refutes the stated range: time.Time.Sub saturates
at the maximum time.Duration (about 292 years), so a timestamp 300 years
(9460800000000000000 ns, an exact whole number of minutes, hence equal to its
own truncation) after the epoch decodes to the saturated instant
9223372020000000000 ns after the epoch instead of itself. -/
theorem c4_counterexample :
    ReadDateFromUInt32 (WriteDateToUInt32 ⟨[]⟩ 9460800000000000000).1 =
      ((GoTime.epochPlus 9223372020000000000, none), ⟨[]⟩) ∧
    (9460800000000000000 : Int) % nsPerMinute = 0 ∧
    (9223372020000000000 : Int) ≠ 9460800000000000000 := by
  refine ⟨by decide, by decide, by decide⟩

/-- C4 amended: for timestamps from the epoch up to 2^53 ns (about 104 days)
after it — the regime where the float64 minute computation of the source is
exact — writing with WriteDateToUInt32 and reading with ReadDateFromUInt32
returns the timestamp truncated toward zero to the whole minute; in
particular 90 minutes after the epoch round-trips exactly and 90 seconds
after the epoch decodes to 1 minute after the epoch.  Beyond the maximum
time.Duration (about 292 years) the offset saturates and the claim fails, so
the representable range is far below the stated 8171 years. -/
theorem c4_minutes_round_trip (d : Int) (h0 : 0 ≤ d) (h1 : d < 2 ^ 53) :
    ReadDateFromUInt32 (WriteDateToUInt32 ⟨[]⟩ d).1 =
      ((GoTime.epochPlus (d / nsPerMinute * nsPerMinute), none), ⟨[]⟩) := by
  have hsub : subIoDateBase d = d := by
    unfold subIoDateBase int64Max int64Min
    split_ifs <;> omega
  have hm : GetDateInMinutes d = d.toNat / 60000000000 := by
    unfold GetDateInMinutes nsPerMinute
    rw [hsub]
    have hlt : d.toNat / 60000000000 < 2 ^ 32 := by omega
    simpa using Nat.mod_eq_of_lt hlt
  have hmlt : d.toNat / 60000000000 < 2 ^ 32 := by omega
  rw [WriteDateToUInt32, hm, writeUint32_eq]
  have hread := readUint32_parse (d.toNat / 60000000000) [] hmlt
  simp only [List.append_nil] at hread
  simp only [ReadDateFromUInt32, List.nil_append, hread]
  have hwrap : wrapInt64 (((d.toNat / 60000000000 : Nat) : Int) * nsPerMinute) =
      ((d.toNat / 60000000000 : Nat) : Int) * nsPerMinute := by
    apply wrapInt64_eq_self
    · unfold nsPerMinute
      positivity
    · unfold nsPerMinute
      omega
  rw [hwrap]
  unfold nsPerMinute
  simp only [Prod.mk.injEq, GoTime.epochPlus.injEq, and_true, true_and]
  omega

/-- Witness for c4_minutes_round_trip at 90 seconds after the epoch: the
decode returns exactly 1 minute after the epoch, the truncation of 90
seconds. -/
theorem c4_minutes_round_trip_witness :
    ReadDateFromUInt32 (WriteDateToUInt32 ⟨[]⟩ 90000000000).1 =
      (((GoTime.epochPlus ((90000000000 : Int) / nsPerMinute * nsPerMinute)), none), ⟨[]⟩) ∧
    (90000000000 : Int) / nsPerMinute * nsPerMinute = 60000000000 :=
  ⟨c4_minutes_round_trip 90000000000 (by decide) (by decide), by decide⟩

theorem takeWhile_ne_zero (s rest : List Nat) (h : 0 ∉ s) :
    (s ++ 0 :: rest).takeWhile (fun c => c != 0) = s := by
  induction s with
  | nil => simp
  | cons a t ih =>
    rw [List.mem_cons, not_or] at h
    have ha : (a != 0) = true := by
      simp only [bne_iff_ne, ne_eq]
      exact fun e => h.1 e.symm
    simp only [List.cons_append, List.takeWhile_cons, ha, if_true]
    rw [ih h.2]

theorem takeWhile_all_ne_zero (data : List Nat) (h : 0 ∉ data) :
    data.takeWhile (fun c => c != 0) = data := by
  induction data with
  | nil => simp
  | cons a t ih =>
    rw [List.mem_cons, not_or] at h
    have ha : (a != 0) = true := by
      simp only [bne_iff_ne, ne_eq]
      exact fun e => h.1 e.symm
    simp only [List.takeWhile_cons, ha, if_true]
    rw [ih h.2]

theorem readBytesZero_found (s rest : List Nat) (h : 0 ∉ s) :
    Buffer.readBytesZero ⟨s ++ 0 :: rest⟩ = ((s ++ [0], none), ⟨rest⟩) := by
  have hdrop : (s ++ 0 :: rest).drop (s.length + 1) = rest := by
    have he : s ++ 0 :: rest = (s ++ [0]) ++ rest := by simp
    have hl : (s ++ [0]).length = s.length + 1 := by simp
    rw [he, ← hl, List.drop_left]
  have hne : ¬ (s.length = (s ++ 0 :: rest).length) := by
    simp only [List.length_append, List.length_cons]
    omega
  simp only [Buffer.readBytesZero, takeWhile_ne_zero s rest h, hne, if_false, hdrop]

theorem readString_parse (s rest : List Nat) (h : 0 ∉ s) :
    ReadString ⟨s ++ 0 :: rest⟩ = ((s, none), ⟨rest⟩) := by
  simp [ReadString, readBytesZero_found s rest h, List.dropLast_concat]

theorem readString_eof (data : List Nat) (h : 0 ∉ data) :
    ReadString ⟨data⟩ = (([], some errEOF), ⟨[]⟩) := by
  simp [ReadString, Buffer.readBytesZero, takeWhile_all_ne_zero data h]

/-- C5: writing a zero-free string appends its bytes followed by a single
zero terminator; reading returns the string exactly and advances the cursor
past the terminator (the trailing bytes remain); round trip on an otherwise
empty buffer recovers the string with the buffer fully consumed; and reading
from a buffer containing no zero byte fails with io.EOF. -/
theorem c5_string_round_trip (s rest data : List Nat) (hs : 0 ∉ s) (hd : 0 ∉ data) :
    WriteString ⟨[]⟩ s = (⟨s ++ [0]⟩, none) ∧
    ReadString ⟨s ++ 0 :: rest⟩ = ((s, none), ⟨rest⟩) ∧
    ReadString (WriteString ⟨[]⟩ s).1 = ((s, none), ⟨[]⟩) ∧
    ReadString ⟨data⟩ = (([], some errEOF), ⟨[]⟩) := by
  have hw : WriteString ⟨[]⟩ s = (⟨s ++ [0]⟩, none) := by
    simpa using writeString_eq ⟨[]⟩ s
  refine ⟨hw, readString_parse s rest hs, ?_, readString_eof data hd⟩
  rw [hw]
  simpa using readString_parse s [] hs

/-- Witness for c5_string_round_trip on the string "Hi" (bytes 72, 105). -/
theorem c5_string_round_trip_witness :
    WriteString ⟨[]⟩ [72, 105] = (⟨[72, 105] ++ [0]⟩, none) ∧
    ReadString ⟨[72, 105] ++ 0 :: [9]⟩ = (([72, 105], none), ⟨[9]⟩) ∧
    ReadString (WriteString ⟨[]⟩ [72, 105]).1 = (([72, 105], none), ⟨[]⟩) ∧
    ReadString ⟨[3]⟩ = (([], some errEOF), ⟨[]⟩) :=
  c5_string_round_trip [72, 105] [9] [3] (by decide) (by decide)

/-- C9: a string with an embedded zero byte (first zero at index pre.length)
is written in full by WriteString without error, and ReadString on the result
succeeds, returning only the portion before the first zero and leaving the
bytes after it (followed by the written terminator) unconsumed in the buffer:
neither operation detects or rejects the embedded zero. -/
theorem c9_embedded_zero_truncates (pre suf : List Nat) (h : 0 ∉ pre) :
    WriteString ⟨[]⟩ (pre ++ 0 :: suf) = (⟨(pre ++ 0 :: suf) ++ [0]⟩, none) ∧
    ReadString (WriteString ⟨[]⟩ (pre ++ 0 :: suf)).1 = ((pre, none), ⟨suf ++ [0]⟩) := by
  have hw : WriteString ⟨[]⟩ (pre ++ 0 :: suf) = (⟨(pre ++ 0 :: suf) ++ [0]⟩, none) := by
    simpa using writeString_eq ⟨[]⟩ (pre ++ 0 :: suf)
  refine ⟨hw, ?_⟩
  rw [hw]
  have he : (pre ++ 0 :: suf) ++ [0] = pre ++ 0 :: (suf ++ [0]) := by
    simp
  rw [he]
  exact readString_parse pre (suf ++ [0]) h

/-- Witness for c9_embedded_zero_truncates on the byte string 1 2 0 3 4: the
read returns 1 2 and leaves 3 4 0 unconsumed. -/
theorem c9_embedded_zero_truncates_witness :
    WriteString ⟨[]⟩ ([1, 2] ++ 0 :: [3, 4]) = (⟨([1, 2] ++ 0 :: [3, 4]) ++ [0]⟩, none) ∧
    ReadString (WriteString ⟨[]⟩ ([1, 2] ++ 0 :: [3, 4])).1 = (([1, 2], none), ⟨[3, 4] ++ [0]⟩) :=
  c9_embedded_zero_truncates [1, 2] [3, 4] (by decide)

/-- C8: WriteBool appends exactly one byte, 1 for true and 0 for false, and
ReadBool on a single-byte buffer returns false for the byte 0 and true for
every non-zero byte value. -/
theorem c8_bool_encoding (b : Buffer) (v : Bool) (c : Nat) (hc : c ≠ 0) :
    WriteBool b v = (⟨b.data ++ [if v then 1 else 0]⟩, none) ∧
    ReadBool ⟨[0]⟩ = ((false, none), ⟨[]⟩) ∧
    ReadBool ⟨[c]⟩ = ((true, none), ⟨[]⟩) := by
  refine ⟨by cases v <;> simp [WriteBool, Buffer.writeByte], by decide, ?_⟩
  simp [ReadBool, Buffer.next, bne_iff_ne, hc]

/-- Witness for c8_bool_encoding with the non-canonical true byte 7. -/
theorem c8_bool_encoding_witness :
    WriteBool ⟨[]⟩ true = (⟨Buffer.data ⟨[]⟩ ++ [if true then 1 else 0]⟩, none) ∧
    ReadBool ⟨[0]⟩ = ((false, none), ⟨[]⟩) ∧
    ReadBool ⟨[7]⟩ = ((true, none), ⟨[]⟩) :=
  c8_bool_encoding ⟨[]⟩ true 7 (by decide)

/-- C7: the claim states that no codec operation swallows an internal error,
and in particular that ReadTime fails whenever decoding the timestamp blob
fails.  The code refutes it and the spec is clearly the intent (every other
operation propagates every error, and the error result of t.GobDecode is
silently discarded): on the buffer 00 00 00 00, a well-formed length prefix
declaring an empty blob, the gob decoder rejects the empty payload, yet
ReadTime returns a nil error together with the default zero time.Time. -/
theorem c7_read_time_swallows_gob_error :
    gobDecodeTime [] = Except.error "Time.UnmarshalBinary: no data" ∧
    ReadTime ⟨[0, 0, 0, 0]⟩ = ((GoTime.zero, none), ⟨[]⟩) :=
  ⟨rfl, rfl⟩

theorem writeStringsLoop_eq (v : List (List Nat)) : ∀ b : Buffer,
    writeStringsLoop v b = (⟨b.data ++ encStrings v⟩, none) := by
  induction v with
  | nil => intro b; simp [writeStringsLoop, encStrings]
  | cons s t ih =>
    intro b
    simp only [writeStringsLoop, writeString_eq]
    rw [ih]
    simp [encStrings, List.append_assoc]

theorem readStringsLoop_parse (v : List (List Nat)) : ∀ rest : List Nat,
    (∀ s ∈ v, 0 ∉ s) →
    readStringsLoop v.length ⟨encStrings v ++ rest⟩ = ((some v, none), ⟨rest⟩) := by
  induction v with
  | nil => intro rest _; simp [readStringsLoop, encStrings]
  | cons s t ih =>
    intro rest h
    have hs : 0 ∉ s := h s (List.mem_cons_self s t)
    have ht : ∀ x ∈ t, 0 ∉ x := fun x hx => h x (List.mem_cons_of_mem s hx)
    have henc : encStrings (s :: t) ++ rest = s ++ 0 :: (encStrings t ++ rest) := by
      simp [encStrings, List.append_assoc]
    rw [List.length_cons, henc]
    simp only [readStringsLoop, readString_parse s (encStrings t ++ rest) hs]
    rw [ih rest ht]

theorem writeByteArray_eq (b : Buffer) (a : List Nat) :
    WriteByteArray b a = (⟨b.data ++ (putUint32 a.length ++ a)⟩, none) := by
  simp [WriteByteArray, writeUint32_eq, WriteByteArrayNoLength, Buffer.write,
    List.append_assoc]

theorem readByteArray_parse (a rest : List Nat) (h : a.length < 2 ^ 32) :
    ReadByteArray ⟨putUint32 a.length ++ (a ++ rest)⟩ = ((a, none), ⟨rest⟩) := by
  simp only [ReadByteArray, readUint32_parse a.length (a ++ rest) h, Buffer.next,
    List.take_left, List.drop_left]

theorem writeByteArrayArrayLoop_eq (v : List (List Nat)) : ∀ b : Buffer,
    writeByteArrayArrayLoop v b = (⟨b.data ++ encBlobs v⟩, none) := by
  induction v with
  | nil => intro b; simp [writeByteArrayArrayLoop, encBlobs]
  | cons a t ih =>
    intro b
    simp only [writeByteArrayArrayLoop, writeByteArray_eq]
    rw [ih]
    simp [encBlobs, List.append_assoc]

theorem readByteArrayArrayLoop_parse (v : List (List Nat)) : ∀ rest : List Nat,
    (∀ a ∈ v, a.length < 2 ^ 32) →
    readByteArrayArrayLoop v.length ⟨encBlobs v ++ rest⟩ = ((some v, none), ⟨rest⟩) := by
  induction v with
  | nil => intro rest _; simp [readByteArrayArrayLoop, encBlobs]
  | cons a t ih =>
    intro rest h
    have ha : a.length < 2 ^ 32 := h a (List.mem_cons_self a t)
    have ht : ∀ x ∈ t, x.length < 2 ^ 32 := fun x hx => h x (List.mem_cons_of_mem a hx)
    have henc : encBlobs (a :: t) ++ rest =
        putUint32 a.length ++ (a ++ (encBlobs t ++ rest)) := by
      simp [encBlobs, List.append_assoc]
    rw [List.length_cons, henc]
    simp only [readByteArrayArrayLoop, readByteArray_parse a (encBlobs t ++ rest) ha]
    rw [ih rest ht]

/-- C6: the claim states that every sequence of strings and every sequence of
blobs round-trips through the array codecs with order, length and contents
preserved.  The code refutes it for strings containing a zero byte: the
one-element sequence holding the single-byte string 00 encodes and decodes
without error into the one-element sequence holding the empty string, so
element content is not preserved. -/
theorem c6_counterexample :
    (ReadStrings (WriteStrings ⟨[]⟩ [[0]]).1).1 = (some [[]], none) ∧
    ([([] : List Nat)] : List (List Nat)) ≠ [[0]] := by
  refine ⟨by decide, by decide⟩

/-- C6 amended: for every sequence of at most 65535 zero-free strings and
every sequence of at most 65535 blobs each shorter than 2^32 bytes (the
ranges the Uint16 count header and Uint32 length headers can represent,
automatically satisfied by real Go slices except for the zero-free
condition), the array codecs round-trip with length, order and element
contents preserved, the empty sequences included, which encode as a zero
count with no following elements. -/
theorem c6_array_round_trip (v w : List (List Nat))
    (hv : v.length < 2 ^ 16) (hvs : ∀ s ∈ v, 0 ∉ s)
    (hw : w.length < 2 ^ 16) (hws : ∀ a ∈ w, a.length < 2 ^ 32) :
    ReadStrings (WriteStrings ⟨[]⟩ v).1 = ((some v, none), ⟨[]⟩) ∧
    ReadByteArrayArray (WriteByteArrayArray ⟨[]⟩ w).1 = ((some w, none), ⟨[]⟩) := by
  constructor
  · rw [WriteStrings]
    simp only [writeUint16_eq, writeStringsLoop_eq, List.nil_append]
    rw [ReadStrings]
    have hparse := readUint16_parse v.length (encStrings v) hv
    simp only [hparse]
    have hloop := readStringsLoop_parse v [] hvs
    simpa using hloop
  · rw [WriteByteArrayArray]
    simp only [writeUint16_eq, writeByteArrayArrayLoop_eq, List.nil_append]
    rw [ReadByteArrayArray]
    have hparse := readUint16_parse w.length (encBlobs w) hw
    simp only [hparse]
    have hloop := readByteArrayArrayLoop_parse w [] hws
    simpa using hloop

/-- Witness for c6_array_round_trip: three strings with a duplicate and three
blobs with an empty one, plus implicitly the empty-sequence case through the
general statement. -/
theorem c6_array_round_trip_witness :
    ReadStrings (WriteStrings ⟨[]⟩ [[72], [105, 105], [72]]).1 =
      ((some [[72], [105, 105], [72]], none), ⟨[]⟩) ∧
    ReadByteArrayArray (WriteByteArrayArray ⟨[]⟩ [[1, 2], [], [3]]).1 =
      ((some [[1, 2], [], [3]], none), ⟨[]⟩) :=
  c6_array_round_trip [[72], [105, 105], [72]] [[1, 2], [], [3]]
    (by decide) (by decide) (by decide) (by decide)

theorem readStringsLoop_err (n : Nat) : ∀ b : Buffer,
    ((readStringsLoop n b).1.2).isSome → (readStringsLoop n b).1.1 = none := by
  induction n with
  | zero => intro b h; simp [readStringsLoop] at h
  | succ k ih =>
    intro b
    rcases hrs : ReadString b with ⟨⟨s, e⟩, b1⟩
    cases e with
    | some err => simp [readStringsLoop, hrs]
    | none =>
      rcases hloop : readStringsLoop k b1 with ⟨⟨val, e2⟩, b2⟩
      cases val with
      | some l =>
        cases e2 with
        | none => simp [readStringsLoop, hrs, hloop]
        | some err2 =>
          have := ih b1
          rw [hloop] at this
          simp at this
      | none => simp [readStringsLoop, hrs, hloop]

theorem readByteArrayArrayLoop_err (n : Nat) : ∀ b : Buffer,
    ((readByteArrayArrayLoop n b).1.2).isSome → (readByteArrayArrayLoop n b).1.1 = none := by
  induction n with
  | zero => intro b h; simp [readByteArrayArrayLoop] at h
  | succ k ih =>
    intro b
    rcases hra : ReadByteArray b with ⟨⟨a, e⟩, b1⟩
    cases e with
    | some err => simp [readByteArrayArrayLoop, hra]
    | none =>
      rcases hloop : readByteArrayArrayLoop k b1 with ⟨⟨val, e2⟩, b2⟩
      cases val with
      | some l =>
        cases e2 with
        | none => simp [readByteArrayArrayLoop, hra, hloop]
        | some err2 =>
          have := ih b1
          rw [hloop] at this
          simp at this
      | none => simp [readByteArrayArrayLoop, hra, hloop]

/-- C10: whenever ReadStrings or ReadByteArrayArray returns an error — from
the Uint16 count header or from any element — the slice it returns is nil,
never a partially filled array of the elements decoded before the failure. -/
theorem c10_nil_slice_on_error (b : Buffer) :
    ((ReadStrings b).1.2.isSome → (ReadStrings b).1.1 = none) ∧
    ((ReadByteArrayArray b).1.2.isSome → (ReadByteArrayArray b).1.1 = none) := by
  constructor
  · rcases h16 : ReadUint16 b with ⟨⟨c, e⟩, b1⟩
    cases e with
    | some err => simp [ReadStrings, h16]
    | none =>
      simp only [ReadStrings, h16]
      exact readStringsLoop_err c b1
  · rcases h16 : ReadUint16 b with ⟨⟨c, e⟩, b1⟩
    cases e with
    | some err => simp [ReadByteArrayArray, h16]
    | none =>
      simp only [ReadByteArrayArray, h16]
      exact readByteArrayArrayLoop_err c b1

/-- Witness for c10_nil_slice_on_error: the empty buffer makes the count read
fail, and a buffer declaring two strings but holding one makes the second
element read fail; both decoders return the nil slice. -/
theorem c10_nil_slice_on_error_witness :
    (ReadStrings ⟨[]⟩).1.1 = none ∧
    (ReadByteArrayArray ⟨[]⟩).1.1 = none ∧
    (ReadStrings ⟨[2, 0, 65, 0]⟩).1.1 = none :=
  ⟨(c10_nil_slice_on_error ⟨[]⟩).1 (by decide),
   (c10_nil_slice_on_error ⟨[]⟩).2 (by decide),
   (c10_nil_slice_on_error ⟨[2, 0, 65, 0]⟩).1 (by decide)⟩

end CommonGo
